import Mathlib

set_option maxHeartbeats 1000000

namespace CryptoBot

/-- Candle rows are lists of strings, following the Python annotation of candles as
lists of lists of str in bybit_price_downloader.py. -/
abbrev Candle := List String

/-- Values modelling the Python exceptions raised by the connector code.
The constructor invalidDateFormat models the ValueError raised by to_unix_timestamp;
its first field records the offending date string, which the raise site has in scope,
writes to the log, and chains as the cause of the raised error. The constructor
requestException models requests.RequestException, including the HTTPError raised by
response.raise_for_status for a non-2xx status. The constructor apiError models the
ValueError raised for a non-zero retCode field. -/
inductive PyError where
  | invalidDateFormat (dateStr : String) (msg : String)
  | requestException (msg : String)
  | apiError (msg : String)
deriving Repr, DecidableEq

/-- Structured view of the JSON body of one kline API response. Each field is optional
because the Python code reads it with dict.get; a missing retCode behaves as a failure
sentinel and a missing result.list behaves as an empty list. -/
structure ApiResponseBody where
  retCode : Option Int
  retMsg : Option String
  resultList : Option (List Candle)
deriving Repr, DecidableEq

/-- Outcome of one HTTP GET against the kline endpoint: either requests.get raised a
transport exception, or a response with a status code and a parsed body came back. -/
inductive HttpOutcome where
  | requestException (msg : String)
  | httpResponse (status : Nat) (body : ApiResponseBody)
deriving Repr, DecidableEq

/-- Query parameters of one page request, exactly the params dict built in get_prices:
category, symbol, interval, start and limit. No end parameter is sent. -/
structure PageParams where
  category : String
  symbol : String
  interval : String
  start : Int
  limit : Int
deriving Repr, DecidableEq

/-- The static interval conversion table of interval_to_seconds, transcribed from the
conversion dict in the source. -/
def intervalTable : List (String × Int) :=
  [("1", 60), ("3", 180), ("5", 300), ("15", 900), ("30", 1800), ("60", 3600),
   ("120", 7200), ("240", 14400), ("360", 21600), ("720", 43200),
   ("D", 86400), ("W", 604800), ("M", 2592000)]

/-- Embedding of BybitConnector.interval_to_seconds: look the interval code up in the
static table and default to 86400 when absent. The Python function never raises. -/
def interval_to_seconds (interval : String) : Int :=
  (intervalTable.lookup interval).getD 86400

/-- True exactly when interval_to_seconds takes the default branch, in which the Python
code emits a logger warning about the unknown interval before returning 86400. -/
def intervalWarning (interval : String) : Bool :=
  (intervalTable.lookup interval).isNone

/-- Fields of a parsed date string, in the order year, month, day, hour, minute, second. -/
structure DateTimeFields where
  year : Nat
  month : Nat
  day : Nat
  hour : Nat
  minute : Nat
  second : Nat
deriving Repr, DecidableEq

/-- ASCII whitespace as matched by a regex whitespace class in the CPython strptime
implementation, which compiles literal whitespace in the format to one-or-more
whitespace characters. Unicode whitespace beyond ASCII is not modelled. -/
def isPySpace (c : Char) : Bool :=
  c.toNat = 32 || c.toNat = 9 || c.toNat = 10 || c.toNat = 11 || c.toNat = 12 || c.toNat = 13

/-- Value of a list of decimal digit characters. -/
def digitsToNat (ds : List Char) : Nat :=
  ds.foldl (fun n c => 10 * n + (c.toNat - 48)) 0

/-- Scan a run of one or two digits whose value lies between lo and hi, mirroring the
one-or-two digit alternation patterns CPython strptime compiles for the month, day,
hour, minute and second directives. A run of three or more digits fails, as the regex
then cannot consume the whole run before the following literal separator. -/
def parseNum2 (lo hi : Nat) (cs : List Char) : Option (Nat × List Char) :=
  let ds := cs.takeWhile Char.isDigit
  let rest := cs.dropWhile Char.isDigit
  if ds.length = 1 ∨ ds.length = 2 then
    let v := digitsToNat ds
    if lo ≤ v ∧ v ≤ hi then some (v, rest) else none
  else none

/-- Scan a run of exactly four digits, mirroring the strptime pattern for a year. -/
def parseYear4 (cs : List Char) : Option (Nat × List Char) :=
  let ds := cs.takeWhile Char.isDigit
  let rest := cs.dropWhile Char.isDigit
  if ds.length = 4 then some (digitsToNat ds, rest) else none

/-- Consume one expected literal character. -/
def expectChar (c : Char) (cs : List Char) : Option (List Char) :=
  match cs with
  | [] => none
  | d :: rest => if d = c then some rest else none

/-- Consume a nonempty run of whitespace, standing for the literal space of the format,
which CPython strptime compiles to a one-or-more whitespace pattern. -/
def expectSpaces (cs : List Char) : Option (List Char) :=
  let ws := cs.takeWhile isPySpace
  let rest := cs.dropWhile isPySpace
  if ws.length = 0 then none else some rest

/-- Gregorian leap year rule, as used by the datetime validation of the day field. -/
def isLeapYear (y : Nat) : Bool :=
  (y % 4 = 0 && decide (y % 100 ≠ 0)) || y % 400 = 0

/-- Number of days of a month, as used by the datetime constructor validation. -/
def daysInMonth (y m : Nat) : Nat :=
  if m = 2 then (if isLeapYear y then 29 else 28)
  else if m = 4 ∨ m = 6 ∨ m = 9 ∨ m = 11 then 30
  else 31

/-- Embedding of datetime.strptime with the fixed format of year-month-day
hour:minute:second, composed with the datetime constructor validation: the regex match
must cover the whole string, the year has exactly four digits and is at least one, the
other fields have one or two digits within their ranges, seconds beyond 59 are rejected
by the datetime constructor, and the day must exist in the given month. Returns none
exactly when the Python call raises ValueError. -/
def parseDateTime (s : String) : Option DateTimeFields := do
  let (y, r1) ← parseYear4 s.data
  let r2 ← expectChar '-' r1
  let (mo, r3) ← parseNum2 1 12 r2
  let r4 ← expectChar '-' r3
  let (d, r5) ← parseNum2 1 31 r4
  let r6 ← expectSpaces r5
  let (h, r7) ← parseNum2 0 23 r6
  let r8 ← expectChar ':' r7
  let (mi, r9) ← parseNum2 0 59 r8
  let r10 ← expectChar ':' r9
  let (sec, r11) ← parseNum2 0 59 r10
  if r11 = [] ∧ 1 ≤ y ∧ d ≤ daysInMonth y mo then
    some ⟨y, mo, d, h, mi, sec⟩
  else none

/-- Days from the civil epoch for a year, month and day, by the standard civil calendar
computation. Used to embed the timestamp method of datetime. -/
def daysFromCivil (y m d : Int) : Int :=
  let y2 := if m ≤ 2 then y - 1 else y
  let era := y2.fdiv 400
  let yoe := y2 - era * 400
  let mp := (m + 9) % 12
  let doy := (153 * mp + 2) / 5 + d - 1
  let doe := yoe * 365 + yoe / 4 - yoe / 100 + doy
  era * 146097 + doe - 719468

/-- Embedding of int(dt.timestamp()) for a naive datetime. The timestamp method
interprets a naive datetime in the local timezone of the environment, modelled here by
the constant offset tz in seconds east of UTC. -/
def timestampOf (tz : Int) (f : DateTimeFields) : Int :=
  daysFromCivil (Int.ofNat f.year) (Int.ofNat f.month) (Int.ofNat f.day) * 86400
    + Int.ofNat f.hour * 3600 + Int.ofNat f.minute * 60 + Int.ofNat f.second - tz

/-- Embedding of BybitConnector.to_unix_timestamp: convert the date string, and on any
parse failure raise ValueError with a fixed message, chaining the strptime cause whose
text names the offending string. The error value records the offending string together
with the message of the raised ValueError. -/
def to_unix_timestamp (tz : Int) (dateStr : String) : Except PyError Int :=
  match parseDateTime dateStr with
  | some f => Except.ok (timestampOf tz f)
  | none => Except.error (PyError.invalidDateFormat dateStr
      "Invalid date format. Use \x27YYYY-MM-DD HH:MM:SS\x27.")

/-- State of a BybitConnector object: the five constructor arguments, stored verbatim.
The Python attribute names are category, symbol, interval, start and end; the last two
are renamed startDate and endDate here because end is a reserved word in Lean. -/
structure BybitConnector where
  category : String
  symbol : String
  interval : String
  startDate : String
  endDate : String
deriving Repr, DecidableEq

/-- Embedding of the BybitConnector constructor. The Python init method only assigns
the five arguments to attributes; it performs no validation and cannot raise. -/
def BybitConnector.init (category symbol interval start stop : String) : BybitConnector :=
  ⟨category, symbol, interval, start, stop⟩

/-- Message of the HTTPError raised by response.raise_for_status for a status code in
the 400 to 599 range. -/
def httpErrorMsg (status : Nat) : String :=
  toString status ++ (if status < 500 then " Client Error" else " Server Error")

/-- Embedding of the pagination while loop of get_prices. The fuel argument bounds the
number of remaining iterations so that the function is total; a return value of none
means the loop was still running when the fuel ran out, so the Python loop runs for
more iterations than the given fuel. Alongside the result, the list of page requests
issued so far is threaded through, so that theorems can speak about the requests the
code sends. Each iteration mirrors the loop body: compute the batch end as the minimum
of batchStart plus limit times spc and the end timestamp, request floor of the batch
width over spc candles, fail on a transport error or a 4xx or 5xx status, fail on a
retCode other than zero, stop when the page has no rows, otherwise extend the
accumulator and advance the cursor to the batch end. -/
def getPricesLoop (api : PageParams → HttpOutcome) (category symbol interval : String)
    (spc limit endTimestamp : Int) :
    Nat → Int → List Candle → List PageParams →
      Option (List PageParams × Except PyError (List Candle))
  | 0, batchStart, acc, reqs =>
    if batchStart < endTimestamp then none
    else some (reqs, Except.ok acc)
  | fuel + 1, batchStart, acc, reqs =>
    if batchStart < endTimestamp then
      let maxBatchEnd := batchStart + limit * spc
      let batchEnd := min maxBatchEnd endTimestamp
      let candlesLimit := (batchEnd - batchStart).fdiv spc
      let params : PageParams := ⟨category, symbol, interval, batchStart, candlesLimit⟩
      match api params with
      | HttpOutcome.requestException msg =>
        some (reqs ++ [params], Except.error (PyError.requestException msg))
      | HttpOutcome.httpResponse status body =>
        if 400 ≤ status ∧ status ≤ 599 then
          some (reqs ++ [params], Except.error (PyError.requestException (httpErrorMsg status)))
        else if body.retCode ≠ some 0 then
          some (reqs ++ [params], Except.error (PyError.apiError
            ("API error: " ++ body.retMsg.getD "Unknown error from API.")))
        else
          let candles := body.resultList.getD []
          if candles.isEmpty then some (reqs ++ [params], Except.ok acc)
          else getPricesLoop api category symbol interval spc limit endTimestamp
                 fuel batchEnd (acc ++ candles) (reqs ++ [params])
    else some (reqs, Except.ok acc)

/-- Embedding of BybitConnector.get_prices: convert the start and end strings to Unix
timestamps, resolve the interval, then run the pagination loop from the start timestamp
with an empty accumulator. The api argument stands for the network; tz is the local
timezone offset used by the timestamp conversion; fuel bounds the loop as described at
getPricesLoop. The returned pair carries the issued requests and either the candle list
or the raised error. -/
def BybitConnector.get_prices (conn : BybitConnector) (api : PageParams → HttpOutcome)
    (tz : Int) (limit : Int) (fuel : Nat) :
    Option (List PageParams × Except PyError (List Candle)) :=
  match to_unix_timestamp tz conn.startDate with
  | Except.error e => some ([], Except.error e)
  | Except.ok startTimestamp =>
    match to_unix_timestamp tz conn.endDate with
    | Except.error e => some ([], Except.error e)
    | Except.ok endTimestamp =>
      getPricesLoop api conn.category conn.symbol conn.interval
        (interval_to_seconds conn.interval) limit endTimestamp fuel startTimestamp [] []

/-- Double quote character, written by code point to keep string literals plain. -/
def dq : Char := Char.ofNat 34

/-- Comma character. -/
def cm : Char := Char.ofNat 44

/-- Carriage return character. -/
def cr : Char := Char.ofNat 13

/-- Line feed character. -/
def lf : Char := Char.ofNat 10

/-- True for characters that force a csv field to be quoted under minimal quoting:
the delimiter, the quote character, and the characters of the line terminator. -/
def csvSpecial (c : Char) : Bool :=
  c = cm || c = dq || c = cr || c = lf

/-- True when a field must be quoted by the csv writer under minimal quoting. -/
def needsQuote (f : List Char) : Bool :=
  f.any csvSpecial

/-- Double every quote character of a field, as the csv writer does inside quotes. -/
def dupQuotes : List Char → List Char
  | [] => []
  | c :: cs => if c = dq then dq :: dq :: dupQuotes cs else c :: dupQuotes cs

/-- Serialize one field under minimal quoting: quote it exactly when it holds a special
character, doubling inner quotes. -/
def escapeField (f : List Char) : List Char :=
  if needsQuote f then dq :: (dupQuotes f ++ [dq]) else f

/-- Serialize the fields of one row, separated by commas, without the line terminator. -/
def writeRowBody : List (List Char) → List Char
  | [] => []
  | [f] => escapeField f
  | f :: f2 :: fs => escapeField f ++ cm :: writeRowBody (f2 :: fs)

/-- Serialize one row with the default line terminator. A row holding exactly one empty
field is written as a pair of quotes, as the csv writer does, so that the line is not
read back as an empty row. -/
def writeRow (r : List (List Char)) : List Char :=
  if r = [[]] then [dq, dq, cr, lf]
  else writeRowBody r ++ [cr, lf]

/-- Serialize a list of rows, modelling writerow and writerows of the csv module with
the default dialect. -/
def writeCsv : List (List (List Char)) → List Char
  | [] => []
  | r :: rs => writeRow r ++ writeCsv rs

/-- What ended a csv field: a comma before another field, a line end, or the end of the
input. -/
inductive FieldStop where
  | comma
  | newline
  | eof
deriving Repr, DecidableEq

/-- Read an unquoted csv field, accumulating characters until a comma, a line end or
the end of input. The accumulator is kept reversed. -/
def scanPlain (acc : List Char) : List Char → List Char × FieldStop × List Char
  | [] => (acc.reverse, FieldStop.eof, [])
  | c :: rest =>
    if c = cm then (acc.reverse, FieldStop.comma, rest)
    else if c = cr then
      match rest with
      | c2 :: rest2 =>
        if c2 = lf then (acc.reverse, FieldStop.newline, rest2)
        else scanPlain (c :: acc) rest
      | [] => scanPlain (c :: acc) rest
    else if c = lf then (acc.reverse, FieldStop.newline, rest)
    else scanPlain (c :: acc) rest

/-- Read the remainder of a quoted csv field, after its opening quote. A doubled quote
stands for one quote character; a single quote closes the field, after which a comma,
line end or end of input follows. The writer never produces other characters after a
closing quote; for totality such characters are taken into the field. -/
def scanQuoted (acc : List Char) : List Char → List Char × FieldStop × List Char
  | [] => (acc.reverse, FieldStop.eof, [])
  | c :: rest =>
    if c = dq then
      match rest with
      | [] => (acc.reverse, FieldStop.eof, [])
      | c2 :: rest2 =>
        if c2 = dq then scanQuoted (dq :: acc) rest2
        else if c2 = cm then (acc.reverse, FieldStop.comma, rest2)
        else if c2 = cr then
          match rest2 with
          | c3 :: rest3 =>
            if c3 = lf then (acc.reverse, FieldStop.newline, rest3)
            else (acc.reverse, FieldStop.newline, rest2)
          | [] => (acc.reverse, FieldStop.newline, [])
        else if c2 = lf then (acc.reverse, FieldStop.newline, rest2)
        else scanQuoted (c2 :: acc) rest2
    else scanQuoted (c :: acc) rest

/-- Read one csv field together with what ended it. -/
def scanField (cs : List Char) : List Char × FieldStop × List Char :=
  match cs with
  | [] => ([], FieldStop.eof, [])
  | c :: rest => if c = dq then scanQuoted [] rest else scanPlain [] cs

@[simp] theorem cm_ne_dq : cm ≠ dq := by decide

@[simp] theorem cm_ne_cr : cm ≠ cr := by decide

@[simp] theorem cm_ne_lf : cm ≠ lf := by decide

@[simp] theorem cr_ne_cm : cr ≠ cm := by decide

@[simp] theorem cr_ne_dq : cr ≠ dq := by decide

@[simp] theorem cr_ne_lf : cr ≠ lf := by decide

@[simp] theorem lf_ne_cm : lf ≠ cm := by decide

@[simp] theorem lf_ne_cr : lf ≠ cr := by decide

@[simp] theorem lf_ne_dq : lf ≠ dq := by decide

@[simp] theorem dq_ne_cm : dq ≠ cm := by decide

@[simp] theorem dq_ne_cr : dq ≠ cr := by decide

@[simp] theorem dq_ne_lf : dq ≠ lf := by decide

@[simp] theorem scanPlain_nil (acc : List Char) :
    scanPlain acc [] = (acc.reverse, FieldStop.eof, []) := rfl

theorem scanPlain_cm (acc rest) :
    scanPlain acc (cm :: rest) = (acc.reverse, FieldStop.comma, rest) := by
  simp [scanPlain]

theorem scanPlain_crlf (acc rest) :
    scanPlain acc (cr :: lf :: rest) = (acc.reverse, FieldStop.newline, rest) := by
  simp [scanPlain]

theorem scanPlain_lf (acc rest) :
    scanPlain acc (lf :: rest) = (acc.reverse, FieldStop.newline, rest) := by
  simp [scanPlain]

theorem scanPlain_cr_other (acc c2 rest) (h : c2 ≠ lf) :
    scanPlain acc (cr :: c2 :: rest) = scanPlain (cr :: acc) (c2 :: rest) := by
  simp [scanPlain, h]

theorem scanPlain_cr_nil (acc : List Char) :
    scanPlain acc [cr] = ((cr :: acc).reverse, FieldStop.eof, []) := by
  simp [scanPlain]

theorem scanPlain_other (acc c rest) (h1 : c ≠ cm) (h2 : c ≠ cr) (h3 : c ≠ lf) :
    scanPlain acc (c :: rest) = scanPlain (c :: acc) rest := by
  cases rest with
  | nil => simp [scanPlain, h1, h2, h3]
  | cons c2 rest2 => simp [scanPlain, h1, h2, h3]

@[simp] theorem scanQuoted_nil (acc : List Char) :
    scanQuoted acc [] = (acc.reverse, FieldStop.eof, []) := rfl

theorem scanQuoted_other (acc c rest) (h : c ≠ dq) :
    scanQuoted acc (c :: rest) = scanQuoted (c :: acc) rest := by
  cases rest with
  | nil => simp [scanQuoted, h]
  | cons c2 rest2 => simp [scanQuoted, h]

theorem scanQuoted_dq_nil (acc : List Char) :
    scanQuoted acc [dq] = (acc.reverse, FieldStop.eof, []) := by
  simp [scanQuoted]

theorem scanQuoted_dq_dq (acc rest) :
    scanQuoted acc (dq :: dq :: rest) = scanQuoted (dq :: acc) rest := by
  simp [scanQuoted]

theorem scanQuoted_dq_cm (acc rest) :
    scanQuoted acc (dq :: cm :: rest) = (acc.reverse, FieldStop.comma, rest) := by
  simp [scanQuoted]

theorem scanQuoted_dq_crlf (acc rest) :
    scanQuoted acc (dq :: cr :: lf :: rest) = (acc.reverse, FieldStop.newline, rest) := by
  simp [scanQuoted]

theorem scanQuoted_dq_lf (acc rest) :
    scanQuoted acc (dq :: lf :: rest) = (acc.reverse, FieldStop.newline, rest) := by
  simp [scanQuoted]

theorem scanQuoted_dq_cr_other (acc c3 rest3) (h : c3 ≠ lf) :
    scanQuoted acc (dq :: cr :: c3 :: rest3) = (acc.reverse, FieldStop.newline, c3 :: rest3) := by
  simp [scanQuoted, h]

theorem scanQuoted_dq_cr_nil (acc : List Char) :
    scanQuoted acc [dq, cr] = (acc.reverse, FieldStop.newline, []) := by
  simp [scanQuoted]

theorem scanQuoted_dq_other (acc c2 rest) (h1 : c2 ≠ dq) (h2 : c2 ≠ cm) (h3 : c2 ≠ cr)
    (h4 : c2 ≠ lf) :
    scanQuoted acc (dq :: c2 :: rest) = scanQuoted (c2 :: acc) rest := by
  simp [scanQuoted, h1, h2, h3, h4]

theorem scanPlain_rest_length :
    ∀ cs acc, (scanPlain acc cs).2.2.length ≤ cs.length ∧
      ((scanPlain acc cs).2.1 = FieldStop.comma → (scanPlain acc cs).2.2.length < cs.length) := by
  intro cs
  induction cs with
  | nil => intro acc; simp
  | cons c rest ih =>
    intro acc
    by_cases h1 : c = cm
    · subst h1; rw [scanPlain_cm]; simp
    · by_cases h2 : c = cr
      · subst h2
        cases rest with
        | nil =>
          rw [scanPlain_cr_nil]; simp
        | cons c2 rest2 =>
          by_cases h3 : c2 = lf
          · subst h3; rw [scanPlain_crlf]
            constructor
            · simp
              omega
            · simp
          · rw [scanPlain_cr_other _ _ _ h3]
            have := ih (cr :: acc)
            refine ⟨Nat.le_trans this.1 (by simp), fun hc => Nat.lt_of_lt_of_le (this.2 hc) (by simp)⟩
      · by_cases h4 : c = lf
        · subst h4; rw [scanPlain_lf]; simp
        · rw [scanPlain_other _ _ _ h1 h2 h4]
          have := ih (c :: acc)
          refine ⟨Nat.le_trans this.1 (by simp), fun hc => Nat.lt_of_lt_of_le (this.2 hc) (by simp)⟩

theorem scanQuoted_rest_length_aux :
    ∀ n cs acc, cs.length ≤ n → (scanQuoted acc cs).2.2.length ≤ cs.length := by
  intro n
  induction n with
  | zero =>
    intro cs acc h
    have : cs = [] := List.eq_nil_of_length_eq_zero (Nat.le_zero.mp h)
    subst this; simp
  | succ n ih =>
    intro cs acc h
    cases cs with
    | nil => simp
    | cons c rest =>
      by_cases hq : c = dq
      · subst hq
        cases rest with
        | nil => rw [scanQuoted_dq_nil]; simp
        | cons c2 rest2 =>
          by_cases h1 : c2 = dq
          · subst h1
            rw [scanQuoted_dq_dq]
            have := ih rest2 (dq :: acc) (by simp at h; omega)
            simp only [List.length_cons]
            omega
          · by_cases h2 : c2 = cm
            · subst h2; rw [scanQuoted_dq_cm]; simp only [List.length_cons]; omega
            · by_cases h3 : c2 = cr
              · subst h3
                cases rest2 with
                | nil =>
                  rw [scanQuoted_dq_cr_nil]; simp
                | cons c3 rest3 =>
                  by_cases h4 : c3 = lf
                  · subst h4; rw [scanQuoted_dq_crlf]; simp only [List.length_cons]; omega
                  · rw [scanQuoted_dq_cr_other _ _ _ h4]
                    simp only [List.length_cons]
                    omega
              · by_cases h4 : c2 = lf
                · subst h4; rw [scanQuoted_dq_lf]; simp only [List.length_cons]; omega
                · rw [scanQuoted_dq_other _ _ _ h1 h2 h3 h4]
                  have := ih rest2 (c2 :: acc) (by simp at h; omega)
                  simp only [List.length_cons]
                  omega
      · rw [scanQuoted_other _ _ _ hq]
        have := ih rest (c :: acc) (by simp at h; omega)
        simp only [List.length_cons]
        omega

theorem scanQuoted_rest_length (cs acc) : (scanQuoted acc cs).2.2.length ≤ cs.length :=
  scanQuoted_rest_length_aux cs.length cs acc (Nat.le_refl _)

theorem scanField_comma_length {cs f rest} (h : scanField cs = (f, FieldStop.comma, rest)) :
    rest.length < cs.length := by
  cases cs with
  | nil => simp [scanField] at h
  | cons c cs0 =>
    by_cases hq : c = dq
    · simp only [scanField, hq, if_pos] at h
      have := scanQuoted_rest_length cs0 []
      rw [h] at this
      simpa using Nat.lt_succ_of_le this
    · simp only [scanField, hq, if_neg, not_false_iff] at h
      have := (scanPlain_rest_length (c :: cs0) []).2
      rw [h] at this
      exact this rfl

theorem dupQuotes_dq (f : List Char) : dupQuotes (dq :: f) = dq :: dq :: dupQuotes f := by
  simp [dupQuotes]

theorem dupQuotes_other (c : Char) (f : List Char) (h : c ≠ dq) :
    dupQuotes (c :: f) = c :: dupQuotes f := by
  simp [dupQuotes, h]

theorem scanQuoted_dup_comma :
    ∀ f acc rest, scanQuoted acc (dupQuotes f ++ dq :: cm :: rest)
      = (acc.reverse ++ f, FieldStop.comma, rest) := by
  intro f
  induction f with
  | nil => intro acc rest; simp [dupQuotes, scanQuoted_dq_cm]
  | cons c f ih =>
    intro acc rest
    by_cases h : c = dq
    · subst h
      rw [dupQuotes_dq]
      simp only [List.cons_append]
      rw [scanQuoted_dq_dq, ih (dq :: acc) rest]
      simp
    · rw [dupQuotes_other _ _ h]
      simp only [List.cons_append]
      rw [scanQuoted_other _ _ _ h, ih (c :: acc) rest]
      simp

theorem scanQuoted_dup_newline :
    ∀ f acc rest, scanQuoted acc (dupQuotes f ++ dq :: cr :: lf :: rest)
      = (acc.reverse ++ f, FieldStop.newline, rest) := by
  intro f
  induction f with
  | nil => intro acc rest; simp [dupQuotes, scanQuoted_dq_crlf]
  | cons c f ih =>
    intro acc rest
    by_cases h : c = dq
    · subst h
      rw [dupQuotes_dq]
      simp only [List.cons_append]
      rw [scanQuoted_dq_dq, ih (dq :: acc) rest]
      simp
    · rw [dupQuotes_other _ _ h]
      simp only [List.cons_append]
      rw [scanQuoted_other _ _ _ h, ih (c :: acc) rest]
      simp

theorem csvSpecial_false (c : Char) (h : csvSpecial c = false) :
    c ≠ cm ∧ c ≠ dq ∧ c ≠ cr ∧ c ≠ lf := by
  simp only [csvSpecial, Bool.or_eq_false_iff, decide_eq_false_iff_not] at h
  exact ⟨h.1.1.1, h.1.1.2, h.1.2, h.2⟩

theorem scanPlain_safe_comma :
    ∀ f acc rest, (∀ c ∈ f, csvSpecial c = false) →
      scanPlain acc (f ++ cm :: rest) = (acc.reverse ++ f, FieldStop.comma, rest) := by
  intro f
  induction f with
  | nil => intro acc rest _; simp [scanPlain_cm]
  | cons c f ih =>
    intro acc rest hsafe
    obtain ⟨h1, _, h3, h4⟩ := csvSpecial_false c (hsafe c (by simp))
    simp only [List.cons_append]
    rw [scanPlain_other _ _ _ h1 h3 h4, ih (c :: acc) rest (fun d hd => hsafe d (by simp [hd]))]
    simp

theorem scanPlain_safe_newline :
    ∀ f acc rest, (∀ c ∈ f, csvSpecial c = false) →
      scanPlain acc (f ++ cr :: lf :: rest) = (acc.reverse ++ f, FieldStop.newline, rest) := by
  intro f
  induction f with
  | nil => intro acc rest _; simp [scanPlain_crlf]
  | cons c f ih =>
    intro acc rest hsafe
    obtain ⟨h1, _, h3, h4⟩ := csvSpecial_false c (hsafe c (by simp))
    simp only [List.cons_append]
    rw [scanPlain_other _ _ _ h1 h3 h4, ih (c :: acc) rest (fun d hd => hsafe d (by simp [hd]))]
    simp

theorem scanField_escape_comma (f rest) :
    scanField (escapeField f ++ cm :: rest) = (f, FieldStop.comma, rest) := by
  by_cases hq : needsQuote f
  · simp only [escapeField, if_pos hq, List.cons_append, List.append_assoc,
      List.singleton_append]
    simp only [scanField, if_pos rfl]
    exact scanQuoted_dup_comma f [] rest
  · simp only [escapeField, if_neg hq]
    have hsafe : ∀ c ∈ f, csvSpecial c = false := by
      intro c hc
      by_contra hbad
      exact hq (List.any_eq_true.mpr ⟨c, hc, by simpa using hbad⟩)
    cases f with
    | nil =>
      simp only [List.nil_append, scanField, if_neg cm_ne_dq]
      simpa using scanPlain_cm [] rest
    | cons c f0 =>
      obtain ⟨h1, h2, h3, h4⟩ := csvSpecial_false c (hsafe c (by simp))
      simp only [List.cons_append, scanField, if_neg h2]
      simpa using scanPlain_safe_comma (c :: f0) [] rest hsafe

theorem scanField_escape_newline (f rest) :
    scanField (escapeField f ++ cr :: lf :: rest) = (f, FieldStop.newline, rest) := by
  by_cases hq : needsQuote f
  · simp only [escapeField, if_pos hq, List.cons_append, List.append_assoc,
      List.singleton_append]
    simp only [scanField, if_pos rfl]
    exact scanQuoted_dup_newline f [] rest
  · simp only [escapeField, if_neg hq]
    have hsafe : ∀ c ∈ f, csvSpecial c = false := by
      intro c hc
      by_contra hbad
      exact hq (List.any_eq_true.mpr ⟨c, hc, by simpa using hbad⟩)
    cases f with
    | nil =>
      simp only [List.nil_append, scanField, if_neg cr_ne_dq]
      simpa using scanPlain_crlf [] rest
    | cons c f0 =>
      obtain ⟨h1, h2, h3, h4⟩ := csvSpecial_false c (hsafe c (by simp))
      simp only [List.cons_append, scanField, if_neg h2]
      simpa using scanPlain_safe_newline (c :: f0) [] rest hsafe

/-- Read one csv row as a list of fields, returning the input remaining after the line
end, together with whether the row ended at the end of the input. -/
def scanRow (cs : List Char) : List (List Char) × List Char :=
  match h : scanField cs with
  | (f, FieldStop.comma, rest) =>
    have : rest.length < cs.length := scanField_comma_length h
    let (fs, rest2) := scanRow rest
    (f :: fs, rest2)
  | (f, _, rest) => ([f], rest)
termination_by cs.length

theorem scanRow_writeRowBody :
    ∀ fs f rest, scanRow (writeRowBody (f :: fs) ++ cr :: lf :: rest) = (f :: fs, rest) := by
  intro fs
  induction fs with
  | nil =>
    intro f rest
    show scanRow (escapeField f ++ cr :: lf :: rest) = ([f], rest)
    rw [scanRow]
    split
    next f1 rest1 h =>
      rw [scanField_escape_newline] at h
      simp_all
    next f1 st rest1 h =>
      rw [scanField_escape_newline] at h
      simp_all
  | cons f2 fs ih =>
    intro f rest
    have hb : writeRowBody (f :: f2 :: fs) ++ cr :: lf :: rest
        = escapeField f ++ cm :: (writeRowBody (f2 :: fs) ++ cr :: lf :: rest) := by
      simp [writeRowBody]
    rw [hb, scanRow]
    split
    next f1 rest1 h =>
      rw [scanField_escape_comma] at h
      simp only [Prod.mk.injEq] at h
      obtain ⟨hf, -, hr⟩ := h
      subst hf
      subst hr
      rw [ih f2 rest]
    next f1 st rest1 h =>
      rw [scanField_escape_comma] at h
      simp_all

theorem scanRow_quoted_empty (rest : List Char) :
    scanRow (dq :: dq :: cr :: lf :: rest) = ([[]], rest) := by
  have hsf : scanField (dq :: dq :: cr :: lf :: rest) = ([], FieldStop.newline, rest) := by
    simp [scanField, scanQuoted_dq_crlf]
  rw [scanRow]
  split
  next f1 rest1 h =>
    rw [hsf] at h
    simp_all
  next f1 st rest1 h =>
    rw [hsf] at h
    simp_all

/-- Read csv rows from the input. An empty line is an empty row, as in the csv module.
The fuel argument bounds the number of rows; the wrapper below passes the input length,
which suffices because every row consumes at least one character. -/
def scanRowsAux : Nat → List Char → List (List (List Char))
  | 0, _ => []
  | _, [] => []
  | fuel + 1, c :: rest =>
    if c = cr then
      match rest with
      | c2 :: rest2 =>
        if c2 = lf then [] :: scanRowsAux fuel rest2
        else [] :: scanRowsAux fuel rest
      | [] => [] :: scanRowsAux fuel []
    else if c = lf then [] :: scanRowsAux fuel rest
    else
      let pr := scanRow (c :: rest)
      pr.1 :: scanRowsAux fuel pr.2

/-- Read a whole csv text into rows of fields, modelling the csv reader on a file
written by the csv writer. -/
def readCsv (cs : List Char) : List (List (List Char)) :=
  scanRowsAux cs.length cs

theorem scanRowsAux_nil : ∀ fuel, scanRowsAux fuel [] = [] := by
  intro fuel
  cases fuel <;> rfl

theorem scanRowsAux_crlf (fuel : Nat) (rest : List Char) :
    scanRowsAux (fuel + 1) (cr :: lf :: rest) = [] :: scanRowsAux fuel rest := by
  simp [scanRowsAux]

theorem scanRowsAux_other (fuel : Nat) (c : Char) (rest : List Char)
    (h1 : c ≠ cr) (h2 : c ≠ lf) :
    scanRowsAux (fuel + 1) (c :: rest)
      = (scanRow (c :: rest)).1 :: scanRowsAux fuel (scanRow (c :: rest)).2 := by
  cases rest with
  | nil => simp [scanRowsAux, h1, h2]
  | cons c2 rest2 => simp [scanRowsAux, h1, h2]

theorem writeRowBody_head (f : List Char) (fs : List (List Char)) (hne : ¬(f = [] ∧ fs = [])) :
    ∃ c tail, writeRowBody (f :: fs) = c :: tail ∧ c ≠ cr ∧ c ≠ lf := by
  cases f with
  | nil =>
    cases fs with
    | nil => exact absurd ⟨rfl, rfl⟩ hne
    | cons f2 fs2 =>
      refine ⟨cm, writeRowBody (f2 :: fs2), ?_, cm_ne_cr, cm_ne_lf⟩
      simp [writeRowBody, escapeField, needsQuote]
  | cons c0 f0 =>
    by_cases hq : needsQuote (c0 :: f0)
    · cases fs with
      | nil =>
        exact ⟨dq, dupQuotes (c0 :: f0) ++ [dq],
          by simp [writeRowBody, escapeField, hq], dq_ne_cr, dq_ne_lf⟩
      | cons f2 fs2 =>
        exact ⟨dq, (dupQuotes (c0 :: f0) ++ [dq]) ++ cm :: writeRowBody (f2 :: fs2),
          by simp [writeRowBody, escapeField, hq], dq_ne_cr, dq_ne_lf⟩
    · have hsafe : csvSpecial c0 = false := by
        by_contra hbad
        exact hq (List.any_eq_true.mpr ⟨c0, by simp, by simpa using hbad⟩)
      obtain ⟨-, -, h3, h4⟩ := csvSpecial_false c0 hsafe
      cases fs with
      | nil =>
        exact ⟨c0, f0, by simp [writeRowBody, escapeField, hq], h3, h4⟩
      | cons f2 fs2 =>
        exact ⟨c0, f0 ++ cm :: writeRowBody (f2 :: fs2),
          by simp [writeRowBody, escapeField, hq], h3, h4⟩

theorem scanRowsAux_writeCsv :
    ∀ rows fuel, (writeCsv rows).length ≤ fuel → scanRowsAux fuel (writeCsv rows) = rows := by
  intro rows
  induction rows with
  | nil =>
    intro fuel _
    exact scanRowsAux_nil fuel
  | cons r rs ih =>
    intro fuel hfuel
    have hw : writeCsv (r :: rs) = writeRow r ++ writeCsv rs := rfl
    by_cases hr1 : r = [[]]
    · subst hr1
      have hwr : writeRow [[]] = [dq, dq, cr, lf] := by simp [writeRow]
      rw [hw, hwr] at hfuel ⊢
      cases fuel with
      | zero => simp at hfuel
      | succ fuel =>
        have hsh : [dq, dq, cr, lf] ++ writeCsv rs = dq :: dq :: cr :: lf :: writeCsv rs := rfl
        rw [hsh, scanRowsAux_other fuel dq _ dq_ne_cr dq_ne_lf, scanRow_quoted_empty]
        rw [ih fuel (by simp at hfuel; omega)]
    · by_cases hr0 : r = []
      · subst hr0
        have hwr : writeRow ([] : List (List Char)) = [cr, lf] := by
          simp [writeRow, writeRowBody]
        rw [hw, hwr] at hfuel ⊢
        cases fuel with
        | zero => simp at hfuel
        | succ fuel =>
          have hsh : [cr, lf] ++ writeCsv rs = cr :: lf :: writeCsv rs := rfl
          rw [hsh, scanRowsAux_crlf, ih fuel (by simp at hfuel; omega)]
      · obtain ⟨f, fs, rfl⟩ : ∃ f fs, r = f :: fs := by
          cases r with
          | nil => exact absurd rfl hr0
          | cons f fs => exact ⟨f, fs, rfl⟩
        have hne : ¬(f = [] ∧ fs = []) := by
          rintro ⟨rfl, rfl⟩
          exact hr1 rfl
        have hwr : writeRow (f :: fs) = writeRowBody (f :: fs) ++ [cr, lf] := by
          rw [writeRow, if_neg hr1]
        obtain ⟨c0, tail, hhead, hc1, hc2⟩ := writeRowBody_head f fs hne
        have hsh : writeRow (f :: fs) ++ writeCsv rs
            = c0 :: (tail ++ cr :: lf :: writeCsv rs) := by
          rw [hwr, hhead]
          simp
        rw [hw, hsh] at hfuel ⊢
        cases fuel with
        | zero => simp at hfuel
        | succ fuel =>
          rw [scanRowsAux_other fuel c0 _ hc1 hc2]
          have hback : c0 :: (tail ++ cr :: lf :: writeCsv rs)
              = writeRowBody (f :: fs) ++ cr :: lf :: writeCsv rs := by
            rw [hhead]
            simp
          rw [hback, scanRow_writeRowBody]
          have hlen : (writeCsv rs).length ≤ fuel := by
            simp at hfuel
            omega
          rw [ih fuel hlen]

/-- Round trip of the csv model: reading back a written file recovers the rows exactly,
including rows with special characters, empty rows, and a row holding one empty field. -/
theorem readCsv_writeCsv (rows : List (List (List Char))) :
    readCsv (writeCsv rows) = rows :=
  scanRowsAux_writeCsv rows (writeCsv rows).length (Nat.le_refl _)

/-- Header row written by save_to_csv, transcribed from the source. -/
def headerRow : List String :=
  ["timestamp", "open", "high", "low", "close", "volume", "turnover"]

/-- File content produced by BybitConnector.save_to_csv for a list of candles: the
header row followed by one row per candle, serialized by the csv writer. The directory
handling and file naming of save_to_csv are not part of the content and are omitted. -/
def save_to_csv_content (candles : List Candle) : List Char :=
  writeCsv ((headerRow :: candles).map (fun r => r.map String.data))

/-- Rows of a csv text, with each field packed back into a string. -/
def readCsvStrings (cs : List Char) : List (List String) :=
  (readCsv cs).map (fun r => r.map (fun f => String.mk f))

/-- Page request issued by the loop body for a given cursor position: the start field
is the cursor and the limit field is the truncated candle count of the batch, exactly
as computed in get_prices. -/
def pageRequestAt (category symbol interval : String) (spc limit endTimestamp batchStart : Int) :
    PageParams :=
  ⟨category, symbol, interval, batchStart,
    (min (batchStart + limit * spc) endTimestamp - batchStart).fdiv spc⟩

theorem getPricesLoop_finished (api : PageParams → HttpOutcome) (category symbol interval : String)
    (spc limit endTimestamp batchStart : Int) (acc : List Candle) (reqs : List PageParams)
    (fuel : Nat) (h : ¬batchStart < endTimestamp) :
    getPricesLoop api category symbol interval spc limit endTimestamp fuel batchStart acc reqs
      = some (reqs, Except.ok acc) := by
  cases fuel with
  | zero => simp [getPricesLoop, h]
  | succ fuel => simp [getPricesLoop, h]

theorem getPricesLoop_step (api : PageParams → HttpOutcome) (category symbol interval : String)
    (spc limit endTimestamp batchStart : Int) (acc : List Candle) (reqs : List PageParams)
    (fuel : Nat) (h : batchStart < endTimestamp) :
    getPricesLoop api category symbol interval spc limit endTimestamp (fuel + 1) batchStart acc reqs
      = (match api (pageRequestAt category symbol interval spc limit endTimestamp batchStart) with
        | HttpOutcome.requestException msg =>
          some (reqs ++ [pageRequestAt category symbol interval spc limit endTimestamp batchStart],
            Except.error (PyError.requestException msg))
        | HttpOutcome.httpResponse status body =>
          if 400 ≤ status ∧ status ≤ 599 then
            some (reqs ++ [pageRequestAt category symbol interval spc limit endTimestamp batchStart],
              Except.error (PyError.requestException (httpErrorMsg status)))
          else if body.retCode ≠ some 0 then
            some (reqs ++ [pageRequestAt category symbol interval spc limit endTimestamp batchStart],
              Except.error (PyError.apiError
                ("API error: " ++ body.retMsg.getD "Unknown error from API.")))
          else if (body.resultList.getD []).isEmpty then
            some (reqs ++ [pageRequestAt category symbol interval spc limit endTimestamp batchStart],
              Except.ok acc)
          else getPricesLoop api category symbol interval spc limit endTimestamp fuel
                 (min (batchStart + limit * spc) endTimestamp)
                 (acc ++ body.resultList.getD [])
                 (reqs ++ [pageRequestAt category symbol interval spc limit endTimestamp batchStart])) := by
  simp only [getPricesLoop, if_pos h, pageRequestAt]

/-- Page responder that answers every request with a 200 response, retCode zero, and
exactly as many one-column rows as the request asked for. Used to witness theorems
about uninterrupted paginated fetches. -/
def exactApi : PageParams → HttpOutcome :=
  fun p => HttpOutcome.httpResponse 200 ⟨some 0, some "OK", some (List.replicate p.limit.toNat ["x"])⟩

/-- Page responder that answers every request with one row, regardless of the requested
count. Used to show that the loop does not terminate when the page limit is zero. -/
def oneRowApi : PageParams → HttpOutcome :=
  fun _ => HttpOutcome.httpResponse 200 ⟨some 0, some "OK", some [["x"]]⟩

theorem get_prices_eq_loop (conn : BybitConnector) (api : PageParams → HttpOutcome)
    (tz limit : Int) (fuel : Nat) (startTs endTs : Int)
    (h1 : to_unix_timestamp tz conn.startDate = Except.ok startTs)
    (h2 : to_unix_timestamp tz conn.endDate = Except.ok endTs) :
    conn.get_prices api tz limit fuel
      = getPricesLoop api conn.category conn.symbol conn.interval
          (interval_to_seconds conn.interval) limit endTs fuel startTs [] [] := by
  unfold BybitConnector.get_prices
  rw [h1, h2]

/-- C2: when the start and end strings convert to Unix timestamps with the end not
after the start, get_prices returns an empty list, raises no error, and issues no API
request: the loop condition is false at once, for any responder and any fuel. -/
theorem get_prices_empty_window (conn : BybitConnector) (api : PageParams → HttpOutcome)
    (tz limit : Int) (fuel : Nat) (startTs endTs : Int)
    (h1 : to_unix_timestamp tz conn.startDate = Except.ok startTs)
    (h2 : to_unix_timestamp tz conn.endDate = Except.ok endTs)
    (hle : endTs ≤ startTs) :
    conn.get_prices api tz limit fuel = some ([], Except.ok []) := by
  rw [get_prices_eq_loop conn api tz limit fuel startTs endTs h1 h2]
  exact getPricesLoop_finished _ _ _ _ _ _ _ _ _ _ _ (not_lt.mpr hle)

/-- Witness for C2 at a connector whose start and end strings are equal. -/
theorem get_prices_empty_window_witness :
    (BybitConnector.init "inverse" "BTCUSD" "D" "2024-12-01 00:00:00"
        "2024-12-01 00:00:00").get_prices exactApi 0 1000 3
      = some ([], Except.ok []) :=
  get_prices_empty_window _ exactApi 0 1000 3
    (timestampOf 0 ⟨2024, 12, 1, 0, 0, 0⟩) (timestampOf 0 ⟨2024, 12, 1, 0, 0, 0⟩)
    rfl rfl (le_refl _)

/-- C3: interval_to_seconds returns exactly the table value for every code of the
static table without warning, and for every code outside the table it returns 86400 and
emits the warning signal. The Lean function is total, matching the Python function,
which never raises. -/
theorem interval_to_seconds_table :
    (∀ p ∈ intervalTable, interval_to_seconds p.1 = p.2 ∧ intervalWarning p.1 = false)
    ∧ ∀ code, intervalTable.lookup code = none →
        interval_to_seconds code = 86400 ∧ intervalWarning code = true := by
  constructor
  · intro p hp
    fin_cases hp <;> exact ⟨rfl, rfl⟩
  · intro code h
    simp [interval_to_seconds, intervalWarning, h]

/-- Witness for C3 at a known code and at an unknown code. -/
theorem interval_to_seconds_table_witness :
    (interval_to_seconds "5" = 300 ∧ intervalWarning "5" = false)
    ∧ (interval_to_seconds "Q" = 86400 ∧ intervalWarning "Q" = true) :=
  ⟨interval_to_seconds_table.1 ("5", 300) (by simp [intervalTable]),
   interval_to_seconds_table.2 "Q" rfl⟩

/-- C4: a page whose row list is empty terminates the pagination loop at that page,
even though the cursor is still before the end timestamp, raises nothing, and returns
exactly the rows accumulated from the earlier pages, in order. -/
theorem get_prices_empty_page_stops (api : PageParams → HttpOutcome)
    (category symbol interval : String) (spc limit endTimestamp batchStart : Int)
    (acc : List Candle) (reqs : List PageParams) (fuel : Nat) (retMsg : Option String)
    (hlt : batchStart < endTimestamp)
    (hresp : api (pageRequestAt category symbol interval spc limit endTimestamp batchStart)
      = HttpOutcome.httpResponse 200 ⟨some 0, retMsg, some []⟩) :
    getPricesLoop api category symbol interval spc limit endTimestamp (fuel + 1)
        batchStart acc reqs
      = some (reqs ++ [pageRequestAt category symbol interval spc limit endTimestamp batchStart],
          Except.ok acc) := by
  rw [getPricesLoop_step api category symbol interval spc limit endTimestamp batchStart acc reqs
    fuel hlt, hresp]
  simp

/-- Witness for C4: an empty first page returns the prior accumulator at once. -/
theorem get_prices_empty_page_stops_witness :
    getPricesLoop (fun _ => HttpOutcome.httpResponse 200 ⟨some 0, some "OK", some []⟩)
        "inverse" "BTCUSD" "D" 86400 1000 86400 4 0 [["prev"]] []
      = some ([pageRequestAt "inverse" "BTCUSD" "D" 86400 1000 86400 0],
          Except.ok [["prev"]]) := by
  have := get_prices_empty_page_stops
    (fun _ => HttpOutcome.httpResponse 200 ⟨some 0, some "OK", some []⟩)
    "inverse" "BTCUSD" "D" 86400 1000 86400 0 [["prev"]] [] 3 (some "OK") (by decide) rfl
  simpa using this

/-- C5: a page whose body carries a retCode other than zero makes get_prices raise the
ValueError standing for an ApiError, whose message is the API error prefix followed by
the retMsg text of that response, so the retMsg is contained in the message; no rows
are returned and the rows of earlier pages, held in the accumulator, are discarded. -/
theorem get_prices_api_error_aborts (api : PageParams → HttpOutcome)
    (category symbol interval : String) (spc limit endTimestamp batchStart : Int)
    (acc : List Candle) (reqs : List PageParams) (fuel : Nat)
    (status : Nat) (body : ApiResponseBody) (m : String)
    (hlt : batchStart < endTimestamp)
    (hresp : api (pageRequestAt category symbol interval spc limit endTimestamp batchStart)
      = HttpOutcome.httpResponse status body)
    (hst : status < 400)
    (hcode : body.retCode ≠ some 0)
    (hmsg : body.retMsg = some m) :
    getPricesLoop api category symbol interval spc limit endTimestamp (fuel + 1)
        batchStart acc reqs
      = some (reqs ++ [pageRequestAt category symbol interval spc limit endTimestamp batchStart],
          Except.error (PyError.apiError ("API error: " ++ m)))
    ∧ ∃ pre, "API error: " ++ m = pre ++ m := by
  constructor
  · rw [getPricesLoop_step api category symbol interval spc limit endTimestamp batchStart acc reqs
      fuel hlt, hresp]
    have hnot : ¬(400 ≤ status ∧ status ≤ 599) := by omega
    simp [hnot, hcode, hmsg]
  · exact ⟨"API error: ", rfl⟩

/-- Witness for C5 at a concrete failing response, with prior rows in the accumulator. -/
theorem get_prices_api_error_aborts_witness :
    getPricesLoop (fun _ => HttpOutcome.httpResponse 200 ⟨some 10001, some "API error", none⟩)
        "inverse" "BTCUSD" "D" 86400 1000 86400 4 0 [["prev"]] []
      = some ([pageRequestAt "inverse" "BTCUSD" "D" 86400 1000 86400 0],
          Except.error (PyError.apiError "API error: API error"))
    ∧ ∃ pre, "API error: API error" = pre ++ "API error" := by
  have := get_prices_api_error_aborts
    (fun _ => HttpOutcome.httpResponse 200 ⟨some 10001, some "API error", none⟩)
    "inverse" "BTCUSD" "D" 86400 1000 86400 0 [["prev"]] [] 3
    200 ⟨some 10001, some "API error", none⟩ "API error"
    (by decide) rfl (by decide) (by simp) rfl
  simpa using this

/-- C6: a transport level failure on a page, either an exception from requests.get or a
status in the 400 to 599 range turned into an HTTPError by raise_for_status, makes
get_prices raise the requests style exception wrapping the cause, after issuing exactly
that one request and no retry, returning no rows and discarding the accumulator; the
error kind is distinct from the ApiError kind raised for a bad retCode. -/
theorem get_prices_transport_error_aborts (api : PageParams → HttpOutcome)
    (category symbol interval : String) (spc limit endTimestamp batchStart : Int)
    (acc : List Candle) (reqs : List PageParams) (fuel : Nat)
    (hlt : batchStart < endTimestamp) :
    (∀ msg, api (pageRequestAt category symbol interval spc limit endTimestamp batchStart)
        = HttpOutcome.requestException msg →
      getPricesLoop api category symbol interval spc limit endTimestamp (fuel + 1)
          batchStart acc reqs
        = some (reqs ++ [pageRequestAt category symbol interval spc limit endTimestamp batchStart],
            Except.error (PyError.requestException msg)))
    ∧ (∀ status body,
        api (pageRequestAt category symbol interval spc limit endTimestamp batchStart)
          = HttpOutcome.httpResponse status body →
        400 ≤ status → status ≤ 599 →
        getPricesLoop api category symbol interval spc limit endTimestamp (fuel + 1)
            batchStart acc reqs
          = some (reqs ++ [pageRequestAt category symbol interval spc limit endTimestamp batchStart],
              Except.error (PyError.requestException (httpErrorMsg status))))
    ∧ ∀ m1 m2, PyError.requestException m1 ≠ PyError.apiError m2 := by
  refine ⟨?_, ?_, ?_⟩
  · intro msg hresp
    rw [getPricesLoop_step api category symbol interval spc limit endTimestamp batchStart acc reqs
      fuel hlt, hresp]
  · intro status body hresp h4 h5
    rw [getPricesLoop_step api category symbol interval spc limit endTimestamp batchStart acc reqs
      fuel hlt, hresp]
    simp [h4, h5]
  · intro m1 m2 h
    exact PyError.noConfusion h

/-- Witness for C6 at a connection failure and at a 500 status. -/
theorem get_prices_transport_error_aborts_witness :
    (getPricesLoop (fun _ => HttpOutcome.requestException "Connection refused")
        "inverse" "BTCUSD" "D" 86400 1000 86400 4 0 [["prev"]] []
      = some ([pageRequestAt "inverse" "BTCUSD" "D" 86400 1000 86400 0],
          Except.error (PyError.requestException "Connection refused")))
    ∧ (getPricesLoop (fun _ => HttpOutcome.httpResponse 500 ⟨none, none, none⟩)
        "inverse" "BTCUSD" "D" 86400 1000 86400 4 0 [["prev"]] []
      = some ([pageRequestAt "inverse" "BTCUSD" "D" 86400 1000 86400 0],
          Except.error (PyError.requestException (httpErrorMsg 500)))) := by
  constructor
  · have := (get_prices_transport_error_aborts
      (fun _ => HttpOutcome.requestException "Connection refused")
      "inverse" "BTCUSD" "D" 86400 1000 86400 0 [["prev"]] [] 3 (by decide)).1
      "Connection refused" rfl
    simpa using this
  · have := (get_prices_transport_error_aborts
      (fun _ => HttpOutcome.httpResponse 500 ⟨none, none, none⟩)
      "inverse" "BTCUSD" "D" 86400 1000 86400 0 [["prev"]] [] 3 (by decide)).2.1
      500 ⟨none, none, none⟩ rfl (by decide) (by decide)
    simpa using this

/-- C8: a start or end string that does not parse in the fixed format makes get_prices
raise the date format ValueError, carrying the offending string, before any request is
issued: the returned request list is empty and the responder is never consulted. -/
theorem get_prices_invalid_date_before_request (conn : BybitConnector)
    (api : PageParams → HttpOutcome) (tz limit : Int) (fuel : Nat) :
    (parseDateTime conn.startDate = none →
      conn.get_prices api tz limit fuel
        = some ([], Except.error (PyError.invalidDateFormat conn.startDate
            "Invalid date format. Use \x27YYYY-MM-DD HH:MM:SS\x27.")))
    ∧ (∀ startTs, to_unix_timestamp tz conn.startDate = Except.ok startTs →
        parseDateTime conn.endDate = none →
        conn.get_prices api tz limit fuel
          = some ([], Except.error (PyError.invalidDateFormat conn.endDate
              "Invalid date format. Use \x27YYYY-MM-DD HH:MM:SS\x27."))) := by
  constructor
  · intro hbad
    have h1 : to_unix_timestamp tz conn.startDate
        = Except.error (PyError.invalidDateFormat conn.startDate
            "Invalid date format. Use \x27YYYY-MM-DD HH:MM:SS\x27.") := by
      unfold to_unix_timestamp
      rw [hbad]
    unfold BybitConnector.get_prices
    rw [h1]
  · intro startTs hok hbad
    have h2 : to_unix_timestamp tz conn.endDate
        = Except.error (PyError.invalidDateFormat conn.endDate
            "Invalid date format. Use \x27YYYY-MM-DD HH:MM:SS\x27.") := by
      unfold to_unix_timestamp
      rw [hbad]
    unfold BybitConnector.get_prices
    rw [hok, h2]

/-- Witness for C8: an hour of 25 in the start string, and in the end string. -/
theorem get_prices_invalid_date_before_request_witness :
    ((BybitConnector.init "inverse" "BTCUSD" "D" "2024-12-01 25:00:00"
        "2024-12-02 00:00:00").get_prices exactApi 0 1000 5
      = some ([], Except.error (PyError.invalidDateFormat "2024-12-01 25:00:00"
          "Invalid date format. Use \x27YYYY-MM-DD HH:MM:SS\x27.")))
    ∧ ((BybitConnector.init "inverse" "BTCUSD" "D" "2024-12-01 00:00:00"
        "2024-12-02 25:00:00").get_prices exactApi 0 1000 5
      = some ([], Except.error (PyError.invalidDateFormat "2024-12-02 25:00:00"
          "Invalid date format. Use \x27YYYY-MM-DD HH:MM:SS\x27."))) :=
  ⟨(get_prices_invalid_date_before_request _ exactApi 0 1000 5).1 rfl,
   (get_prices_invalid_date_before_request _ exactApi 0 1000 5).2
     (timestampOf 0 ⟨2024, 12, 1, 0, 0, 0⟩) rfl rfl⟩

/-- C7 counterexample: constructing the connector with an unparseable start string
succeeds and stores the string verbatim, so no error of any kind is raised at
construction time; the date format error only appears when get_prices runs. This
contradicts the claim that construction itself fails, and matches the repository test
that constructs with an invalid date and expects get_prices to raise. -/
theorem init_accepts_invalid_date_cex :
    BybitConnector.init "inverse" "BTCUSD" "D" "2024-12-01 25:00:00" "2024-12-02 00:00:00"
      = { category := "inverse", symbol := "BTCUSD", interval := "D",
          startDate := "2024-12-01 25:00:00", endDate := "2024-12-02 00:00:00" }
    ∧ parseDateTime "2024-12-01 25:00:00" = none
    ∧ (BybitConnector.init "inverse" "BTCUSD" "D" "2024-12-01 25:00:00"
        "2024-12-02 00:00:00").get_prices exactApi 0 1000 5
      = some ([], Except.error (PyError.invalidDateFormat "2024-12-01 25:00:00"
          "Invalid date format. Use \x27YYYY-MM-DD HH:MM:SS\x27.")) :=
  ⟨rfl, rfl, rfl⟩

/-- C7 amended: construction never validates its arguments and cannot fail; it stores
the five strings verbatim, and when the start string is unparseable the date format
error is raised by get_prices, before any request, rather than at construction time. -/
theorem init_stores_and_defers (category symbol interval start stop : String) :
    BybitConnector.init category symbol interval start stop
      = { category := category, symbol := symbol, interval := interval,
          startDate := start, endDate := stop }
    ∧ (parseDateTime start = none →
        ∀ (api : PageParams → HttpOutcome) (tz limit : Int) (fuel : Nat),
          (BybitConnector.init category symbol interval start stop).get_prices api tz limit fuel
            = some ([], Except.error (PyError.invalidDateFormat start
                "Invalid date format. Use \x27YYYY-MM-DD HH:MM:SS\x27."))) := by
  constructor
  · rfl
  · intro hbad api tz limit fuel
    have h1 : to_unix_timestamp tz start
        = Except.error (PyError.invalidDateFormat start
            "Invalid date format. Use \x27YYYY-MM-DD HH:MM:SS\x27.") := by
      unfold to_unix_timestamp
      rw [hbad]
    unfold BybitConnector.get_prices
    simp only [BybitConnector.init]
    rw [h1]

/-- Witness for the amended C7 claim at a concrete invalid start string. -/
theorem init_stores_and_defers_witness :
    BybitConnector.init "inverse" "BTCUSD" "D" "2024-12-01 25:00:00" "2024-12-02 00:00:00"
      = { category := "inverse", symbol := "BTCUSD", interval := "D",
          startDate := "2024-12-01 25:00:00", endDate := "2024-12-02 00:00:00" }
    ∧ (BybitConnector.init "inverse" "BTCUSD" "D" "2024-12-01 25:00:00"
        "2024-12-02 00:00:00").get_prices oneRowApi 0 1000 7
      = some ([], Except.error (PyError.invalidDateFormat "2024-12-01 25:00:00"
          "Invalid date format. Use \x27YYYY-MM-DD HH:MM:SS\x27.")) :=
  ⟨(init_stores_and_defers "inverse" "BTCUSD" "D" "2024-12-01 25:00:00"
      "2024-12-02 00:00:00").1,
   (init_stores_and_defers "inverse" "BTCUSD" "D" "2024-12-01 25:00:00"
      "2024-12-02 00:00:00").2 rfl oneRowApi 0 1000 7⟩

theorem pos_of_lookup :
    ∀ (l : List (String × Int)), (∀ p ∈ l, 0 < p.2) →
      ∀ code v, l.lookup code = some v → 0 < v := by
  intro l
  induction l with
  | nil =>
    intro _ code v h
    simp [List.lookup] at h
  | cons p es ih =>
    intro hall code v h
    obtain ⟨k, b⟩ := p
    rw [List.lookup] at h
    rcases hbe : code == k with - | -
    · rw [hbe] at h
      exact ih (fun q hq => hall q (by simp [hq])) code v h
    · rw [hbe] at h
      simp only [Option.some.injEq] at h
      subst h
      exact hall (k, b) (by simp)

theorem interval_to_seconds_pos (code : String) : 0 < interval_to_seconds code := by
  unfold interval_to_seconds
  rcases h : intervalTable.lookup code with - | v
  · simp
  · simpa using pos_of_lookup intervalTable (by decide) code v h

theorem pageRequestAt_start (category symbol interval : String)
    (spc limit endTimestamp batchStart : Int) :
    (pageRequestAt category symbol interval spc limit endTimestamp batchStart).start
      = batchStart := rfl

theorem getPricesLoop_step_ok (api : PageParams → HttpOutcome)
    (category symbol interval : String) (spc limit endTimestamp batchStart : Int)
    (acc : List Candle) (reqs : List PageParams) (fuel : Nat)
    (msg : Option String) (rows : List Candle)
    (hlt : batchStart < endTimestamp)
    (hresp : api (pageRequestAt category symbol interval spc limit endTimestamp batchStart)
      = HttpOutcome.httpResponse 200 ⟨some 0, msg, some rows⟩) :
    getPricesLoop api category symbol interval spc limit endTimestamp (fuel + 1)
        batchStart acc reqs
      = if rows.isEmpty then
          some (reqs ++ [pageRequestAt category symbol interval spc limit endTimestamp batchStart],
            Except.ok acc)
        else getPricesLoop api category symbol interval spc limit endTimestamp fuel
               (min (batchStart + limit * spc) endTimestamp) (acc ++ rows)
               (reqs ++ [pageRequestAt category symbol interval spc limit endTimestamp batchStart]) := by
  rw [getPricesLoop_step api category symbol interval spc limit endTimestamp batchStart acc reqs
    fuel hlt, hresp]
  simp

theorem getPricesLoop_exact_len (api : PageParams → HttpOutcome)
    (category symbol interval : String) (spc limit endTimestamp : Int)
    (hspc : 0 < spc) (hlim : 1 ≤ limit)
    (hapi : ∀ p : PageParams, ∃ rows msg,
      api p = HttpOutcome.httpResponse 200 ⟨some 0, msg, some rows⟩
        ∧ rows.length = p.limit.toNat) :
    ∀ (fuel : Nat) (batchStart : Int) (acc : List Candle) (reqs : List PageParams),
      batchStart ≤ endTimestamp → (endTimestamp - batchStart).toNat ≤ fuel →
      ∃ (reqs2 : List PageParams) (rows2 : List Candle),
        getPricesLoop api category symbol interval spc limit endTimestamp fuel batchStart acc reqs
          = some (reqs2, Except.ok rows2)
        ∧ rows2.length = acc.length + ((endTimestamp - batchStart).fdiv spc).toNat
        ∧ ∀ r ∈ reqs2, r ∈ reqs
            ∨ r = pageRequestAt category symbol interval spc limit endTimestamp r.start := by
  intro fuel
  induction fuel with
  | zero =>
    intro batchStart acc reqs hle hfuel
    have hnot : ¬batchStart < endTimestamp := by omega
    refine ⟨reqs, acc, getPricesLoop_finished _ _ _ _ _ _ _ _ _ _ _ hnot, ?_,
      fun r hr => Or.inl hr⟩
    have heq : endTimestamp - batchStart = 0 := by omega
    rw [heq, Int.fdiv_eq_ediv _ (le_of_lt hspc), Int.zero_ediv]
    simp
  | succ fuel ih =>
    intro batchStart acc reqs hle hfuel
    by_cases hlt : batchStart < endTimestamp
    · obtain ⟨rows, msg, hresp, hlen⟩ :=
        hapi (pageRequestAt category symbol interval spc limit endTimestamp batchStart)
      simp only [pageRequestAt] at hlen
      rw [getPricesLoop_step_ok api category symbol interval spc limit endTimestamp batchStart
        acc reqs fuel msg rows hlt hresp]
      have hLpos : 0 < limit * spc := mul_pos (by omega) hspc
      rcases le_or_lt (batchStart + limit * spc) endTimestamp with hA | hB
      · have hmin : min (batchStart + limit * spc) endTimestamp = batchStart + limit * spc :=
          min_eq_left hA
        have hcl : (min (batchStart + limit * spc) endTimestamp - batchStart).fdiv spc
            = limit := by
          rw [hmin]
          have hw : batchStart + limit * spc - batchStart = limit * spc := by ring
          rw [hw, Int.fdiv_eq_ediv _ (le_of_lt hspc),
            Int.mul_ediv_cancel _ (by omega : spc ≠ 0)]
        rw [hcl] at hlen
        have hne : rows.isEmpty = false := by
          cases hrows : rows with
          | nil =>
            rw [hrows] at hlen
            simp at hlen
            omega
          | cons r0 rows0 => simp [hrows]
        rw [hne, if_neg (by simp)]
        obtain ⟨reqs2, rows2, heq, hlen2, hshape⟩ :=
          ih (batchStart + limit * spc) (acc ++ rows)
            (reqs ++ [pageRequestAt category symbol interval spc limit endTimestamp batchStart])
            hA (by omega)
        refine ⟨reqs2, rows2, ?_, ?_, ?_⟩
        · rw [hmin]
          exact heq
        · have hdiv : (endTimestamp - batchStart) / spc
              = (endTimestamp - (batchStart + limit * spc)) / spc + limit := by
            have hsum : endTimestamp - batchStart
                = endTimestamp - (batchStart + limit * spc) + limit * spc := by ring
            rw [hsum, Int.add_mul_ediv_right _ _ (by omega : spc ≠ 0)]
          rw [Int.fdiv_eq_ediv _ (le_of_lt hspc)] at hlen2 ⊢
          rw [List.length_append] at hlen2
          have hq : 0 ≤ (endTimestamp - (batchStart + limit * spc)) / spc :=
            Int.ediv_nonneg (by omega) (by omega)
          rw [hdiv]
          omega
        · intro r hr
          rcases hshape r hr with hmem | hshp
          · rcases List.mem_append.mp hmem with hm | hm
            · exact Or.inl hm
            · right
              have : r = pageRequestAt category symbol interval spc limit endTimestamp
                  batchStart := by simpa using hm
              rw [this, pageRequestAt_start]
          · exact Or.inr hshp
      · have hmin : min (batchStart + limit * spc) endTimestamp = endTimestamp :=
          min_eq_right (le_of_lt hB)
        rw [hmin] at hlen
        by_cases hemp : rows.isEmpty
        · rw [if_pos hemp]
          refine ⟨_, acc, rfl, ?_, ?_⟩
          · have : rows.length = 0 := by
              rw [List.isEmpty_iff] at hemp
              simp [hemp]
            omega
          · intro r hr
            rcases List.mem_append.mp hr with hm | hm
            · exact Or.inl hm
            · right
              have : r = pageRequestAt category symbol interval spc limit endTimestamp
                  batchStart := by simpa using hm
              rw [this, pageRequestAt_start]
        · rw [if_neg hemp]
          obtain ⟨reqs2, rows2, heq, hlen2, hshape⟩ :=
            ih endTimestamp (acc ++ rows)
              (reqs ++ [pageRequestAt category symbol interval spc limit endTimestamp batchStart])
              (le_refl _) (by omega)
          refine ⟨reqs2, rows2, ?_, ?_, ?_⟩
          · rw [hmin]
            exact heq
          · rw [sub_self, Int.fdiv_eq_ediv _ (le_of_lt hspc), Int.zero_ediv,
              List.length_append] at hlen2
            rw [Int.fdiv_eq_ediv _ (le_of_lt hspc)] at hlen ⊢
            omega
          · intro r hr
            rcases hshape r hr with hmem | hshp
            · rcases List.mem_append.mp hmem with hm | hm
              · exact Or.inl hm
              · right
                have : r = pageRequestAt category symbol interval spc limit endTimestamp
                    batchStart := by simpa using hm
                rw [this, pageRequestAt_start]
            · exact Or.inr hshp
    · refine ⟨reqs, acc, getPricesLoop_finished _ _ _ _ _ _ _ _ _ _ _ hlt, ?_,
        fun r hr => Or.inl hr⟩
      have heq : endTimestamp - batchStart = 0 := by omega
      rw [heq, Int.fdiv_eq_ediv _ (le_of_lt hspc), Int.zero_ediv]
      simp

theorem exactApi_spec :
    ∀ p : PageParams, ∃ rows msg,
      exactApi p = HttpOutcome.httpResponse 200 ⟨some 0, msg, some rows⟩
        ∧ rows.length = p.limit.toNat :=
  fun p => ⟨List.replicate p.limit.toNat ["x"], some "OK", rfl, by simp⟩

/-- C1: when the start is strictly before the end, the page limit is at least one, and
every issued page request is answered with exactly the number of rows it asked for,
get_prices returns a list whose length is the floor of the window width divided by the
seconds per candle of the interval, and every request it issued, the final partial page
included, asked for the truncated count of its batch, namely the floor of the batch
width over the seconds per candle. -/
theorem get_prices_row_count (conn : BybitConnector) (api : PageParams → HttpOutcome)
    (tz limit : Int) (fuel : Nat) (startTs endTs : Int)
    (h1 : to_unix_timestamp tz conn.startDate = Except.ok startTs)
    (h2 : to_unix_timestamp tz conn.endDate = Except.ok endTs)
    (hlt : startTs < endTs) (hlim : 1 ≤ limit)
    (hfuel : (endTs - startTs).toNat ≤ fuel)
    (hapi : ∀ p : PageParams, ∃ rows msg,
      api p = HttpOutcome.httpResponse 200 ⟨some 0, msg, some rows⟩
        ∧ rows.length = p.limit.toNat) :
    ∃ reqs rows, conn.get_prices api tz limit fuel = some (reqs, Except.ok rows)
      ∧ rows.length = ((endTs - startTs).fdiv (interval_to_seconds conn.interval)).toNat
      ∧ ∀ r ∈ reqs, r = pageRequestAt conn.category conn.symbol conn.interval
          (interval_to_seconds conn.interval) limit endTs r.start := by
  rw [get_prices_eq_loop conn api tz limit fuel startTs endTs h1 h2]
  obtain ⟨reqs2, rows2, heq, hlen, hshape⟩ :=
    getPricesLoop_exact_len api conn.category conn.symbol conn.interval
      (interval_to_seconds conn.interval) limit endTs
      (interval_to_seconds_pos conn.interval) hlim hapi fuel startTs [] []
      (le_of_lt hlt) hfuel
  refine ⟨reqs2, rows2, heq, by simpa using hlen, fun r hr => ?_⟩
  rcases hshape r hr with hm | hs
  · simp at hm
  · exact hs

/-- Witness for C1: a two day window at the daily interval against the exact responder
returns exactly two rows. -/
theorem get_prices_row_count_witness :
    ∃ reqs rows,
      (BybitConnector.init "inverse" "BTCUSD" "D" "2024-01-01 00:00:00"
          "2024-01-03 00:00:00").get_prices exactApi 0 1000 172800
        = some (reqs, Except.ok rows)
      ∧ rows.length = 2
      ∧ ∀ r ∈ reqs, r = pageRequestAt "inverse" "BTCUSD" "D" (interval_to_seconds "D") 1000
          (timestampOf 0 ⟨2024, 1, 3, 0, 0, 0⟩) r.start := by
  obtain ⟨reqs, rows, heq, hlen, hshape⟩ :=
    get_prices_row_count
      (BybitConnector.init "inverse" "BTCUSD" "D" "2024-01-01 00:00:00" "2024-01-03 00:00:00")
      exactApi 0 1000 172800
      (timestampOf 0 ⟨2024, 1, 1, 0, 0, 0⟩) (timestampOf 0 ⟨2024, 1, 3, 0, 0, 0⟩)
      rfl rfl (by decide) (by decide) (by decide) exactApi_spec
  refine ⟨reqs, rows, heq, ?_, hshape⟩
  rw [hlen]
  decide

theorem getPricesLoop_step_exception (api : PageParams → HttpOutcome)
    (category symbol interval : String) (spc limit endTimestamp batchStart : Int)
    (acc : List Candle) (reqs : List PageParams) (fuel : Nat) (msg : String)
    (hlt : batchStart < endTimestamp)
    (hresp : api (pageRequestAt category symbol interval spc limit endTimestamp batchStart)
      = HttpOutcome.requestException msg) :
    getPricesLoop api category symbol interval spc limit endTimestamp (fuel + 1)
        batchStart acc reqs
      = some (reqs ++ [pageRequestAt category symbol interval spc limit endTimestamp batchStart],
          Except.error (PyError.requestException msg)) := by
  rw [getPricesLoop_step api category symbol interval spc limit endTimestamp batchStart acc reqs
    fuel hlt, hresp]

theorem getPricesLoop_step_response (api : PageParams → HttpOutcome)
    (category symbol interval : String) (spc limit endTimestamp batchStart : Int)
    (acc : List Candle) (reqs : List PageParams) (fuel : Nat)
    (status : Nat) (body : ApiResponseBody)
    (hlt : batchStart < endTimestamp)
    (hresp : api (pageRequestAt category symbol interval spc limit endTimestamp batchStart)
      = HttpOutcome.httpResponse status body) :
    getPricesLoop api category symbol interval spc limit endTimestamp (fuel + 1)
        batchStart acc reqs
      = if 400 ≤ status ∧ status ≤ 599 then
          some (reqs ++ [pageRequestAt category symbol interval spc limit endTimestamp batchStart],
            Except.error (PyError.requestException (httpErrorMsg status)))
        else if body.retCode ≠ some 0 then
          some (reqs ++ [pageRequestAt category symbol interval spc limit endTimestamp batchStart],
            Except.error (PyError.apiError
              ("API error: " ++ body.retMsg.getD "Unknown error from API.")))
        else if (body.resultList.getD []).isEmpty then
          some (reqs ++ [pageRequestAt category symbol interval spc limit endTimestamp batchStart],
            Except.ok acc)
        else getPricesLoop api category symbol interval spc limit endTimestamp fuel
               (min (batchStart + limit * spc) endTimestamp)
               (acc ++ body.resultList.getD [])
               (reqs ++ [pageRequestAt category symbol interval spc limit endTimestamp batchStart]) := by
  rw [getPricesLoop_step api category symbol interval spc limit endTimestamp batchStart acc reqs
    fuel hlt, hresp]

theorem getPricesLoop_total_bound (api : PageParams → HttpOutcome)
    (category symbol interval : String) (spc limit endTimestamp : Int)
    (hspc : 0 < spc) (hlim : 0 < limit) :
    ∀ (fuel : Nat) (batchStart : Int) (acc : List Candle) (reqs : List PageParams),
      (endTimestamp - batchStart).toNat ≤ fuel →
      ∃ out, getPricesLoop api category symbol interval spc limit endTimestamp fuel
          batchStart acc reqs = some out
        ∧ out.1.length ≤ reqs.length
            + ((endTimestamp - batchStart).toNat + (limit * spc).toNat - 1)
                / (limit * spc).toNat := by
  intro fuel
  induction fuel with
  | zero =>
    intro batchStart acc reqs hfuel
    have hnot : ¬batchStart < endTimestamp := by omega
    exact ⟨(reqs, Except.ok acc),
      getPricesLoop_finished _ _ _ _ _ _ _ _ _ _ _ hnot, Nat.le_add_right _ _⟩
  | succ fuel ih =>
    intro batchStart acc reqs hfuel
    have hLpos : 0 < limit * spc := mul_pos hlim hspc
    have hLn : 0 < (limit * spc).toNat := by omega
    by_cases hlt : batchStart < endTimestamp
    · have hone : 1 ≤ ((endTimestamp - batchStart).toNat + (limit * spc).toNat - 1)
          / (limit * spc).toNat := by
        rw [Nat.one_le_div_iff hLn]
        omega
      rcases happi : api (pageRequestAt category symbol interval spc limit endTimestamp
          batchStart) with msg | ⟨status, body⟩
      · rw [getPricesLoop_step_exception api category symbol interval spc limit endTimestamp
          batchStart acc reqs fuel msg hlt happi]
        exact ⟨_, rfl, by simp; omega⟩
      · rw [getPricesLoop_step_response api category symbol interval spc limit endTimestamp
          batchStart acc reqs fuel status body hlt happi]
        by_cases h45 : 400 ≤ status ∧ status ≤ 599
        · rw [if_pos h45]
          exact ⟨_, rfl, by simp; omega⟩
        · rw [if_neg h45]
          by_cases hcode : body.retCode ≠ some 0
          · rw [if_pos hcode]
            exact ⟨_, rfl, by simp; omega⟩
          · rw [if_neg hcode]
            by_cases hemp : (body.resultList.getD []).isEmpty
            · rw [if_pos hemp]
              exact ⟨_, rfl, by simp; omega⟩
            · rw [if_neg hemp]
              rcases le_or_lt (batchStart + limit * spc) endTimestamp with hA | hB
              · have hmin : min (batchStart + limit * spc) endTimestamp
                    = batchStart + limit * spc := min_eq_left hA
                rw [hmin]
                obtain ⟨out, heq, hb⟩ := ih (batchStart + limit * spc)
                  (acc ++ body.resultList.getD [])
                  (reqs ++ [pageRequestAt category symbol interval spc limit endTimestamp
                    batchStart])
                  (by omega)
                refine ⟨out, heq, ?_⟩
                rw [List.length_append] at hb
                have hstep : ((endTimestamp - (batchStart + limit * spc)).toNat
                      + (limit * spc).toNat - 1) / (limit * spc).toNat + 1
                    = ((endTimestamp - batchStart).toNat + (limit * spc).toNat - 1)
                        / (limit * spc).toNat := by
                  have e1 : (endTimestamp - (batchStart + limit * spc)).toNat
                      + (limit * spc).toNat - 1
                      = (endTimestamp - batchStart).toNat - 1 := by omega
                  have e2 : (endTimestamp - batchStart).toNat + (limit * spc).toNat - 1
                      = ((endTimestamp - batchStart).toNat - 1) + (limit * spc).toNat := by
                    omega
                  rw [e1, e2, Nat.add_div_right _ hLn]
                simp at hb
                omega
              · have hmin : min (batchStart + limit * spc) endTimestamp = endTimestamp :=
                  min_eq_right (le_of_lt hB)
                rw [hmin]
                obtain ⟨out, heq, hb⟩ := ih endTimestamp
                  (acc ++ body.resultList.getD [])
                  (reqs ++ [pageRequestAt category symbol interval spc limit endTimestamp
                    batchStart])
                  (by omega)
                refine ⟨out, heq, ?_⟩
                rw [List.length_append] at hb
                simp at hb
                have hz : ((limit * spc).toNat - 1) / (limit * spc).toNat = 0 :=
                  Nat.div_eq_of_lt (by omega)
                omega
    · exact ⟨(reqs, Except.ok acc),
        getPricesLoop_finished _ _ _ _ _ _ _ _ _ _ _ hlt, Nat.le_add_right _ _⟩

theorem getPricesLoop_zero_limit_stuck (category symbol interval : String)
    (spc endTimestamp : Int) :
    ∀ (fuel : Nat) (batchStart : Int) (acc : List Candle) (reqs : List PageParams),
      batchStart < endTimestamp →
      getPricesLoop oneRowApi category symbol interval spc 0 endTimestamp fuel
        batchStart acc reqs = none := by
  intro fuel
  induction fuel with
  | zero =>
    intro batchStart acc reqs hlt
    simp [getPricesLoop, hlt]
  | succ fuel ih =>
    intro batchStart acc reqs hlt
    rw [getPricesLoop_step_response oneRowApi category symbol interval spc 0 endTimestamp
      batchStart acc reqs fuel 200 ⟨some 0, some "OK", some [["x"]]⟩ hlt rfl]
    have hmin : min (batchStart + 0 * spc) endTimestamp = batchStart := by
      rw [zero_mul, add_zero]
      exact min_eq_left (le_of_lt hlt)
    rw [if_neg (by omega), if_neg (by simp), if_neg (by simp), hmin]
    exact ih batchStart _ _ hlt

/-- C1 and C10 share the loop arithmetic; this names the ceiling expression used in the
statement of the request count bound. -/
def requestCeil (width pageSpan : Int) : Nat :=
  (width.toNat + pageSpan.toNat - 1) / pageSpan.toNat

/-- C10: with a page limit of at least one the pagination loop terminates within fuel
equal to the window width, issuing at most the ceiling of the window width over the
page span many requests, for every responder; and the positivity of the page limit is
necessary, because with a page limit of zero and a nonempty window the cursor never
advances, so the loop runs forever against a responder that always returns one row. -/
theorem get_prices_terminates (conn : BybitConnector) (tz startTs endTs : Int)
    (h1 : to_unix_timestamp tz conn.startDate = Except.ok startTs)
    (h2 : to_unix_timestamp tz conn.endDate = Except.ok endTs)
    (hlt : startTs < endTs) :
    (∀ (api : PageParams → HttpOutcome) (limit : Int) (fuel : Nat),
      0 < limit → (endTs - startTs).toNat ≤ fuel →
      ∃ out, conn.get_prices api tz limit fuel = some out
        ∧ out.1.length ≤ requestCeil (endTs - startTs)
            (limit * interval_to_seconds conn.interval))
    ∧ ∀ fuel, conn.get_prices oneRowApi tz 0 fuel = none := by
  constructor
  · intro api limit fuel hl hf
    rw [get_prices_eq_loop conn api tz limit fuel startTs endTs h1 h2]
    obtain ⟨out, heq, hb⟩ :=
      getPricesLoop_total_bound api conn.category conn.symbol conn.interval
        (interval_to_seconds conn.interval) limit endTs
        (interval_to_seconds_pos conn.interval) hl fuel startTs [] [] hf
    exact ⟨out, heq, by simpa [requestCeil] using hb⟩
  · intro fuel
    rw [get_prices_eq_loop conn oneRowApi tz 0 fuel startTs endTs h1 h2]
    exact getPricesLoop_zero_limit_stuck conn.category conn.symbol conn.interval
      (interval_to_seconds conn.interval) endTs fuel startTs [] [] hlt

/-- Witness for C10: the two day window terminates with at most one page of one
thousand daily candles, and the zero limit run returns none for a concrete fuel. -/
theorem get_prices_terminates_witness :
    (∃ out, (BybitConnector.init "inverse" "BTCUSD" "D" "2024-01-01 00:00:00"
          "2024-01-03 00:00:00").get_prices exactApi 0 1000 172800 = some out
        ∧ out.1.length ≤ requestCeil
            (timestampOf 0 ⟨2024, 1, 3, 0, 0, 0⟩ - timestampOf 0 ⟨2024, 1, 1, 0, 0, 0⟩)
            (1000 * interval_to_seconds "D"))
    ∧ (BybitConnector.init "inverse" "BTCUSD" "D" "2024-01-01 00:00:00"
        "2024-01-03 00:00:00").get_prices oneRowApi 0 0 5 = none := by
  have h := get_prices_terminates
    (BybitConnector.init "inverse" "BTCUSD" "D" "2024-01-01 00:00:00" "2024-01-03 00:00:00")
    0 (timestampOf 0 ⟨2024, 1, 1, 0, 0, 0⟩) (timestampOf 0 ⟨2024, 1, 3, 0, 0, 0⟩)
    rfl rfl (by decide)
  exact ⟨h.1 exactApi 1000 172800 (by decide) (by decide), h.2 5⟩

/-- C9: writing any candle list through save_to_csv produces a file whose first row is
the seven field header and whose remaining rows are exactly the candles, and reading
the file back with the csv reader model recovers every field verbatim as a string. -/
theorem save_to_csv_roundtrip (candles : List Candle) :
    readCsvStrings (save_to_csv_content candles) = headerRow :: candles := by
  unfold readCsvStrings save_to_csv_content
  rw [readCsv_writeCsv]
  have hmk : ∀ s : String, String.mk s.data = s := fun _ => rfl
  simp [List.map_map, Function.comp_def, hmk]

end CryptoBot
